import Mathlib

/-!
Verification development for `scripts/build_feed.py`: a single-file RSS/Atom
feed fetcher that extracts up to 12 post records and serializes them.
The Python source is shallowly embedded below: strings are `List Char`
(Python `str` indexing/slicing is by code point, matching `List Char`),
`None`-able values are `Option`, and the pieces of the standard library the
script leans on (`datetime.strptime` on the six format strings it uses,
`datetime.astimezone`, `str.strip`, `str.replace`, the two regex substitutions
and the image-regex search) are modelled as executable functions faithful to
their behaviour on the inputs the script feeds them.
-/

namespace BuildFeed

/-- Python `str` whitespace as relevant to `strip()` and the regex class
`\s` (ASCII part; the script's inputs are feed text). -/
def pyWs (c : Char) : Bool :=
  c = ' ' ∨ c = '\t' ∨ c = '\n' ∨ c = '\r' ∨ c = Char.ofNat 11 ∨ c = Char.ofNat 12

/-- Decimal digit test, as the regex class `[0-9]`. -/
def isDig (c : Char) : Bool := 48 ≤ c.toNat ∧ c.toNat ≤ 57

/-- Numeric value of a digit character. -/
def dv (c : Char) : Nat := c.toNat - 48

/-- The digit character for `n % 10` (used to model Python number
formatting, e.g. inside `datetime.isoformat`). -/
def dchar (n : Nat) : Char := Char.ofNat (48 + n % 10)

/-- The single-quote character (written via its code point). -/
def squote : Char := Char.ofNat 39

/-- Model of Python `str.strip()` (both ends). -/
def trimC (l : List Char) : List Char :=
  ((l.dropWhile pyWs).reverse.dropWhile pyWs).reverse

/-- Model of Python `str.rstrip()` (right end only). -/
def rstripC (l : List Char) : List Char :=
  (l.reverse.dropWhile pyWs).reverse

/-- Model of `s.replace("GMT", "+0000")`: left-to-right, non-overlapping,
every occurrence. -/
def replGMT : List Char → List Char
  | [] => []
  | [c] => [c]
  | [c1, c2] => [c1, c2]
  | c1 :: c2 :: c3 :: rest =>
    if c1 = 'G' ∧ c2 = 'M' ∧ c3 = 'T' then
      '+' :: '0' :: '0' :: '0' :: '0' :: replGMT rest
    else c1 :: replGMT (c2 :: c3 :: rest)

/-- Model of `re.sub(r"\s+", " ", s)`: every maximal whitespace run becomes
one space. -/
def collapseWs : List Char → List Char
  | [] => []
  | [c] => if pyWs c then [' '] else [c]
  | c1 :: c2 :: rest =>
    if pyWs c1 then
      if pyWs c2 then collapseWs (c2 :: rest)
      else ' ' :: collapseWs (c2 :: rest)
    else c1 :: collapseWs (c2 :: rest)

/-- Two-digit zero-padded rendering of `n` (n < 100 in all uses). -/
def pad2 (n : Nat) : List Char := [dchar (n / 10), dchar n]

/-- Four-digit zero-padded rendering of `n` (n < 10000 in all uses). -/
def pad4 (n : Nat) : List Char :=
  [dchar (n / 1000), dchar (n / 100), dchar (n / 10), dchar n]

/-- Six-digit zero-padded rendering of `n` (microseconds, n < 1000000). -/
def pad6 (n : Nat) : List Char :=
  [dchar (n / 100000), dchar (n / 10000), dchar (n / 1000),
   dchar (n / 100), dchar (n / 10), dchar n]

/-! ## Calendar model (the parts of `datetime` the script exercises) -/

/-- Gregorian leap year, as `datetime`. -/
def isLeap (y : Nat) : Bool := y % 4 = 0 ∧ (y % 100 ≠ 0 ∨ y % 400 = 0)

/-- Days in a month, as `datetime`. -/
def daysInMonth (y mo : Nat) : Nat :=
  if mo = 2 then (if isLeap y then 29 else 28)
  else if mo = 4 ∨ mo = 6 ∨ mo = 9 ∨ mo = 11 then 30 else 31

/-- An aware timestamp: civil fields plus a UTC offset in minutes.
`datetime` requires 1 ≤ year ≤ 9999. -/
structure DTA where
  y : Nat
  mo : Nat
  d : Nat
  h : Nat
  mi : Nat
  s : Nat
  us : Nat
  off : Int
deriving DecidableEq, Repr

/-- Validity exactly as the `datetime` constructor checks it (plus the year
range, which is what `OverflowError` guards). -/
def validDTA (t : DTA) : Prop :=
  1 ≤ t.y ∧ t.y ≤ 9999 ∧ 1 ≤ t.mo ∧ t.mo ≤ 12 ∧
  1 ≤ t.d ∧ t.d ≤ daysInMonth t.y t.mo ∧
  t.h ≤ 23 ∧ t.mi ≤ 59 ∧ t.s ≤ 59 ∧ t.us ≤ 999999

instance (t : DTA) : Decidable (validDTA t) :=
  inferInstanceAs (Decidable (1 ≤ t.y ∧ t.y ≤ 9999 ∧ 1 ≤ t.mo ∧ t.mo ≤ 12 ∧
    1 ≤ t.d ∧ t.d ≤ daysInMonth t.y t.mo ∧
    t.h ≤ 23 ∧ t.mi ≤ 59 ∧ t.s ≤ 59 ∧ t.us ≤ 999999))

/-- Calendar successor of a civil date. -/
def nextDay (y mo d : Nat) : Nat × Nat × Nat :=
  if d < daysInMonth y mo then (y, mo, d + 1)
  else if mo < 12 then (y, mo + 1, 1)
  else (y + 1, 1, 1)

/-- Calendar predecessor of a civil date. -/
def prevDay (y mo d : Nat) : Nat × Nat × Nat :=
  if 1 < d then (y, mo, d - 1)
  else if 1 < mo then (y, mo - 1, daysInMonth y (mo - 1))
  else (y - 1, 12, 31)

/-- Model of `dt.astimezone(datetime.timezone.utc)` on an aware datetime
whose offset is `t.off` minutes: subtract the offset, carrying into the
date. `none` models the `OverflowError` raised when the result leaves the
`datetime` year range (the script catches it as a parse failure). -/
def shiftToUTC (t : DTA) : Option DTA :=
  let total : Int := (t.h : Int) * 60 + (t.mi : Int) - t.off
  if 0 ≤ total ∧ total < 1440 then
    some { t with h := total.toNat / 60, mi := total.toNat % 60, off := 0 }
  else if total < 0 then
    let t2 := (total + 1440).toNat
    let p := prevDay t.y t.mo t.d
    if p.1 = 0 then none
    else some { y := p.1, mo := p.2.1, d := p.2.2,
                h := t2 / 60, mi := t2 % 60, s := t.s, us := t.us, off := 0 }
  else
    let t2 := (total - 1440).toNat
    let n := nextDay t.y t.mo t.d
    if 9999 < n.1 then none
    else some { y := n.1, mo := n.2.1, d := n.2.2,
                h := t2 / 60, mi := t2 % 60, s := t.s, us := t.us, off := 0 }

/-- Model of `dt.isoformat()` for a UTC-offset datetime: the exact string
`datetime` prints, with the microseconds part omitted when zero and the
offset rendered `+00:00`. -/
def isoOut (t : DTA) : List Char :=
  pad4 t.y ++ '-' :: pad2 t.mo ++ '-' :: pad2 t.d ++
  'T' :: pad2 t.h ++ ':' :: pad2 t.mi ++ ':' :: pad2 t.s ++
  (if t.us = 0 then [] else '.' :: pad6 t.us) ++
  ['+', '0', '0', ':', '0', '0']

/-! ## Model of `datetime.strptime` on the six format strings of `parse_date`

`strptime` compiles a format into a regex (case-insensitive) and requires the
whole input to be consumed. Each `%`-directive below follows the regex
`_strptime.TimeRE` uses for it. The model accepts the common offset shapes
`±hhmm`, `±hh:mm` and `Z` for `%z`, and the zone names `UTC`/`GMT` for `%Z`
(machine-local zone names, an environment detail, are left out). -/

/-- Fields accumulated while matching one format, with the `strptime`
defaults (year 1900, Jan 1, midnight, no timezone). -/
structure RawDT where
  y : Nat := 1900
  mo : Nat := 1
  d : Nat := 1
  h : Nat := 0
  mi : Nat := 0
  s : Nat := 0
  us : Nat := 0
  off : Option Int := none
deriving DecidableEq, Repr

/-- One directive of a `strptime` format string. -/
inductive Dir where
  | lit (c : Char)
  | sp
  | wday
  | mon3
  | monNum
  | year4
  | day2
  | hour2
  | min2
  | sec2
  | frac
  | zNum
  | zName
deriving DecidableEq, Repr

/-- Lowercase 3-character abbreviations `%a` matches. -/
def wdayNames : List (List Char) :=
  [['m','o','n'], ['t','u','e'], ['w','e','d'], ['t','h','u'],
   ['f','r','i'], ['s','a','t'], ['s','u','n']]

/-- Lowercase 3-character abbreviations `%b` matches, in month order. -/
def monNames : List (List Char) :=
  [['j','a','n'], ['f','e','b'], ['m','a','r'], ['a','p','r'],
   ['m','a','y'], ['j','u','n'], ['j','u','l'], ['a','u','g'],
   ['s','e','p'], ['o','c','t'], ['n','o','v'], ['d','e','c']]

/-- Take three characters and lowercase them (name directives consume
exactly three characters). -/
def take3Low : List Char → Option (List Char × List Char)
  | a :: b :: c :: r => some ([a.toLower, b.toLower, c.toLower], r)
  | _ => none

/-- The `%d` regex `3[01]|[12]\d|0[1-9]|[1-9]`, ordered alternation. -/
def pDay : List Char → Option (Nat × List Char)
  | a :: b :: r =>
    if a = '3' ∧ (b = '0' ∨ b = '1') then some (30 + dv b, r)
    else if (a = '1' ∨ a = '2') ∧ isDig b then some (dv a * 10 + dv b, r)
    else if a = '0' ∧ isDig b ∧ b ≠ '0' then some (dv b, r)
    else if isDig a ∧ a ≠ '0' then some (dv a, b :: r)
    else none
  | [a] => if isDig a ∧ a ≠ '0' then some (dv a, []) else none
  | [] => none

/-- The `%m` regex `1[0-2]|0[1-9]|[1-9]`. -/
def pMon : List Char → Option (Nat × List Char)
  | a :: b :: r =>
    if a = '1' ∧ (b = '0' ∨ b = '1' ∨ b = '2') then some (10 + dv b, r)
    else if a = '0' ∧ isDig b ∧ b ≠ '0' then some (dv b, r)
    else if isDig a ∧ a ≠ '0' then some (dv a, b :: r)
    else none
  | [a] => if isDig a ∧ a ≠ '0' then some (dv a, []) else none
  | [] => none

/-- The `%H` regex `2[0-3]|[0-1]\d|\d`. -/
def pHour : List Char → Option (Nat × List Char)
  | a :: b :: r =>
    if a = '2' ∧ isDig b ∧ dv b ≤ 3 then some (20 + dv b, r)
    else if (a = '0' ∨ a = '1') ∧ isDig b then some (dv a * 10 + dv b, r)
    else if isDig a then some (dv a, b :: r)
    else none
  | [a] => if isDig a then some (dv a, []) else none
  | [] => none

/-- The `%M` regex `[0-5]\d|\d`. -/
def pMin : List Char → Option (Nat × List Char)
  | a :: b :: r =>
    if isDig a ∧ dv a ≤ 5 ∧ isDig b then some (dv a * 10 + dv b, r)
    else if isDig a then some (dv a, b :: r)
    else none
  | [a] => if isDig a then some (dv a, []) else none
  | [] => none

/-- The `%S` regex `6[0-1]|[0-5]\d|\d` (61/60 survive the regex but the
`datetime` constructor later rejects them). -/
def pSec : List Char → Option (Nat × List Char)
  | a :: b :: r =>
    if a = '6' ∧ (b = '0' ∨ b = '1') then some (60 + dv b, r)
    else if isDig a ∧ dv a ≤ 5 ∧ isDig b then some (dv a * 10 + dv b, r)
    else if isDig a then some (dv a, b :: r)
    else none
  | [a] => if isDig a then some (dv a, []) else none
  | [] => none

/-- The `%Y` regex: exactly four digits. -/
def pYear : List Char → Option (Nat × List Char)
  | a :: b :: c :: d :: r =>
    if isDig a ∧ isDig b ∧ isDig c ∧ isDig d then
      some (dv a * 1000 + dv b * 100 + dv c * 10 + dv d, r)
    else none
  | _ => none

/-- Greedy collection of at most `n` leading digits. -/
def takeDigs : Nat → List Char → (List Nat × List Char)
  | 0, l => ([], l)
  | _ + 1, [] => ([], [])
  | n + 1, c :: r =>
    if isDig c then
      let p := takeDigs n r
      (dv c :: p.1, p.2)
    else ([], c :: r)

/-- The `%f` regex of 1 to 6 digits, greedy, right-padded with zeros to
microseconds. -/
def pFrac (l : List Char) : Option (Nat × List Char) :=
  let p := takeDigs 6 l
  if p.1 = [] then none
  else some (p.1.foldl (fun a d => a * 10 + d) 0 * 10 ^ (6 - p.1.length), p.2)

/-- The `%z` directive on the shapes `±hhmm`, `±hh:mm` and (case-sensitive)
`Z`; the offset is in minutes, and `timezone()` construction fails unless it
is strictly below 24 hours. -/
def pZ : List Char → Option (Int × List Char)
  | [] => none
  | a :: rest =>
    if a = 'Z' then some (0, rest)
    else if a = '+' ∨ a = '-' then
      match rest with
      | h1 :: h2 :: rest2 =>
        if isDig h1 ∧ isDig h2 then
          let hh := dv h1 * 10 + dv h2
          let sgn : Int := if a = '-' then -1 else 1
          match rest2 with
          | ':' :: m1 :: m2 :: r2 =>
            if isDig m1 ∧ dv m1 ≤ 5 ∧ isDig m2 ∧
               hh * 60 + (dv m1 * 10 + dv m2) < 1440 then
              some (sgn * (hh * 60 + (dv m1 * 10 + dv m2)), r2)
            else none
          | m1 :: m2 :: r2 =>
            if isDig m1 ∧ dv m1 ≤ 5 ∧ isDig m2 ∧
               hh * 60 + (dv m1 * 10 + dv m2) < 1440 then
              some (sgn * (hh * 60 + (dv m1 * 10 + dv m2)), r2)
            else none
          | _ => none
        else none
      | _ => none
    else none

/-- Run a format (a list of directives) over the input; the whole input must
be consumed, as `strptime` demands. -/
def runFmt : List Dir → List Char → RawDT → Option RawDT
  | [], l, r => if l = [] then some r else none
  | dir :: ds, l, r =>
    match dir with
    | .lit c =>
      match l with
      | x :: xs => if x.toLower = c.toLower then runFmt ds xs r else none
      | [] => none
    | .sp =>
      match l with
      | x :: xs => if pyWs x then runFmt ds (xs.dropWhile pyWs) r else none
      | [] => none
    | .wday =>
      match take3Low l with
      | some (t, xs) => if t ∈ wdayNames then runFmt ds xs r else none
      | none => none
    | .mon3 =>
      match take3Low l with
      | some (t, xs) =>
        match monNames.findIdx? (· = t) with
        | some i => runFmt ds xs { r with mo := i + 1 }
        | none => none
      | none => none
    | .monNum =>
      match pMon l with
      | some (v, xs) => runFmt ds xs { r with mo := v }
      | none => none
    | .year4 =>
      match pYear l with
      | some (v, xs) => runFmt ds xs { r with y := v }
      | none => none
    | .day2 =>
      match pDay l with
      | some (v, xs) => runFmt ds xs { r with d := v }
      | none => none
    | .hour2 =>
      match pHour l with
      | some (v, xs) => runFmt ds xs { r with h := v }
      | none => none
    | .min2 =>
      match pMin l with
      | some (v, xs) => runFmt ds xs { r with mi := v }
      | none => none
    | .sec2 =>
      match pSec l with
      | some (v, xs) => runFmt ds xs { r with s := v }
      | none => none
    | .frac =>
      match pFrac l with
      | some (v, xs) => runFmt ds xs { r with us := v }
      | none => none
    | .zNum =>
      match pZ l with
      | some (v, xs) => runFmt ds xs { r with off := some v }
      | none => none
    | .zName =>
      match take3Low l with
      | some (t, xs) =>
        if t = ['u','t','c'] ∨ t = ['g','m','t'] then runFmt ds xs r else none
      | none => none

/-- Format `"%a, %d %b %Y %H:%M:%S %z"`. -/
def fmt1 : List Dir :=
  [.wday, .lit ',', .sp, .day2, .sp, .mon3, .sp, .year4, .sp,
   .hour2, .lit ':', .min2, .lit ':', .sec2, .sp, .zNum]

/-- Format `"%a, %d %b %Y %H:%M:%S %Z"`. -/
def fmt2 : List Dir :=
  [.wday, .lit ',', .sp, .day2, .sp, .mon3, .sp, .year4, .sp,
   .hour2, .lit ':', .min2, .lit ':', .sec2, .sp, .zName]

/-- Format `"%a, %d %b %Y %H:%M %z"`. -/
def fmt3 : List Dir :=
  [.wday, .lit ',', .sp, .day2, .sp, .mon3, .sp, .year4, .sp,
   .hour2, .lit ':', .min2, .sp, .zNum]

/-- Format `"%a, %d %b %Y %H:%M %Z"`. -/
def fmt4 : List Dir :=
  [.wday, .lit ',', .sp, .day2, .sp, .mon3, .sp, .year4, .sp,
   .hour2, .lit ':', .min2, .sp, .zName]

/-- Format `"%Y-%m-%dT%H:%M:%S%z"`. -/
def fmt5 : List Dir :=
  [.year4, .lit '-', .monNum, .lit '-', .day2, .lit 'T',
   .hour2, .lit ':', .min2, .lit ':', .sec2, .zNum]

/-- Format `"%Y-%m-%dT%H:%M:%S.%f%z"`. -/
def fmt6 : List Dir :=
  [.year4, .lit '-', .monNum, .lit '-', .day2, .lit 'T',
   .hour2, .lit ':', .min2, .lit ':', .sec2, .lit '.', .frac, .zNum]

/-- The format list of `parse_date`, in source order. -/
def fmts : List (List Dir) := [fmt1, fmt2, fmt3, fmt4, fmt5, fmt6]

/-- The `datetime` constructor's validation applied to the matched fields
(`strptime` builds `datetime(year, month, day, ...)`, which raises on
out-of-range fields such as second 61 or Feb 30). Produces naive fields
plus the optional parsed offset. -/
def mkDT (r : RawDT) : Option RawDT :=
  if 1 ≤ r.y ∧ r.y ≤ 9999 ∧ 1 ≤ r.mo ∧ r.mo ≤ 12 ∧
     1 ≤ r.d ∧ r.d ≤ daysInMonth r.y r.mo ∧
     r.h ≤ 23 ∧ r.mi ≤ 59 ∧ r.s ≤ 59 ∧ r.us ≤ 999999 then some r else none

/-- One `try` body of `parse_date`: `strptime` with one format followed by
`astimezone(utc)`. A naive result (no `%z` matched) is interpreted in the
machine's local timezone, modelled as the fixed offset `loc` minutes. Any
failure (`ValueError`, `OverflowError`) makes the whole attempt fail. -/
def attemptFmt (loc : Int) (f : List Dir) (l : List Char) : Option DTA :=
  (runFmt f l {}).bind fun r =>
    (mkDT r).bind fun r2 =>
      shiftToUTC { y := r2.y, mo := r2.mo, d := r2.d, h := r2.h, mi := r2.mi,
                   s := r2.s, us := r2.us, off := r2.off.getD loc }

/-- The inner `for fmt in fmts` loop: first format whose whole attempt
succeeds wins. -/
def firstFmt (loc : Int) : List (List Dir) → List Char → Option DTA
  | [], _ => none
  | f :: fs, l =>
    match attemptFmt loc f l with
    | some dt => some dt
    | none => firstFmt loc fs l

/-- All six formats tried in order on an already-normalized string. -/
def tryFmts (loc : Int) (l : List Char) : Option DTA := firstFmt loc fmts l

/-- The normalization `parse_date` applies to each candidate before
matching: `strip()`, then `replace("GMT", "+0000")`, then collapse
whitespace runs. -/
def normCand (l : List Char) : List Char := collapseWs (replGMT (trimC l))

/-- One candidate of the outer `for raw in candidates` loop: skipped when
falsy (`None` or empty), otherwise normalized, parsed, converted and
rendered by `isoformat`. -/
def candidateISO (loc : Int) (c : Option (List Char)) : Option (List Char) :=
  match c with
  | none => none
  | some l =>
    if l = [] then none
    else (tryFmts loc (normCand l)).map isoOut

/-- The candidate loop of `parse_date`: the first candidate for which some
format parses yields the return value. -/
def pdLoop (loc : Int) : List (Option (List Char)) → Option (List Char)
  | [] => none
  | c :: cs =>
    match candidateISO loc c with
    | some r => some r
    | none => pdLoop loc cs

/-- Model of `parse_date(pub, alt1, alt2)`. `now` is the value
`datetime.utcnow()` would produce (naive fields; `replace(tzinfo=utc)`
attaches offset 0 without conversion), used only by the final fallback. -/
def parse_date (loc : Int) (now : DTA) (pub alt1 alt2 : Option (List Char)) :
    List Char :=
  (pdLoop loc [pub, alt1, alt2]).getD (isoOut { now with off := 0 })

/-! ## Model of `strip_html` and `first_image` -/

/-- Scan for the first `>` and return the remainder after it. -/
def scanGt : List Char → Option (List Char)
  | [] => none
  | c :: r => if c = '>' then some r else scanGt r

/-- Given the text right after a `<`, decide whether `<[^>]+>` matches
here: at least one non-`>` character, then the first following `>`.
Returns the remainder after the closing `>`. -/
def tagSplit : List Char → Option (List Char)
  | [] => none
  | c :: r => if c = '>' then none else scanGt r

/-- Left-to-right scan of `re.sub(r"<[^>]+>", " ", s)`, with fuel (each
step consumes at least one character, so `fuel = length` suffices). -/
def stripTagsGo : Nat → List Char → List Char
  | 0, _ => []
  | _ + 1, [] => []
  | fuel + 1, c :: rest =>
    if c = '<' then
      match tagSplit rest with
      | some r2 => ' ' :: stripTagsGo fuel r2
      | none => c :: stripTagsGo fuel rest
    else c :: stripTagsGo fuel rest

/-- Model of `re.sub(r"<[^>]+>", " ", s)`. -/
def stripTags (l : List Char) : List Char := stripTagsGo l.length l

/-- Model of `strip_html`: tags to spaces, whitespace runs collapsed,
ends stripped (`strip_html(None)` is the empty-input case). -/
def stripHtml (l : List Char) : List Char := trimC (collapseWs (stripTags l))

/-- Quote characters of the image regex class `["\']`. -/
def isQuote (c : Char) : Bool := c = '"' ∨ c = squote

/-- The `["\']([^"\'']+)["\']` tail of the image regex: one opening quote was
just consumed; capture the maximal nonempty quote-free run, then require a
closing quote (either kind). -/
def qCapture (l : List Char) : Option (List Char) :=
  let body := l.takeWhile (fun c => ¬ isQuote c)
  if body ≠ [] ∧ l.drop body.length ≠ [] then some body else none

/-- Match `src=["\']([^"\']+)["\']` at this exact position
(case-insensitive on the letters, as the regex is compiled with `re.I`). -/
def srcMatch : List Char → Option (List Char)
  | s :: r :: c :: e :: q :: rest =>
    if s.toLower = 's' ∧ r.toLower = 'r' ∧ c.toLower = 'c' ∧ e = '=' ∧
       isQuote q then qCapture rest
    else none
  | _ => none

/-- Try the offsets `ks` in order for a `src=` match after the `[^>]+`
part. -/
def firstK (l : List Char) : List Nat → Option (List Char)
  | [] => none
  | k :: ks =>
    match srcMatch (l.drop k) with
    | some cap => some cap
    | none => firstK l ks

/-- Backtracking of the greedy `[^>]+` after `<img`: the window is the
maximal `>`-free prefix; the regex engine tries the longest consumption
first, so the rightmost `src=` inside the window wins. -/
def imgAt (l : List Char) : Option (List Char) :=
  let w := (l.takeWhile (fun c => c ≠ '>')).length
  firstK l (((List.range w).reverse).map (· + 1))

/-- Case-insensitive `<img` at the head. -/
def startsImg : List Char → Bool
  | a :: b :: c :: d :: _ =>
    a = '<' ∧ b.toLower = 'i' ∧ c.toLower = 'm' ∧ d.toLower = 'g'
  | _ => false

/-- Leftmost-position scan of
`re.search(r'<img[^>]+src=["\']([^"\']+)["\']', html, re.I)`. -/
def searchImg : List Char → Option (List Char)
  | [] => none
  | c :: rest =>
    if startsImg (c :: rest) then
      match imgAt ((c :: rest).drop 4) with
      | some cap => some cap
      | none => searchImg rest
    else searchImg rest

/-- Model of `first_image`: `None` for falsy input, else the first regex
match's capture. -/
def first_image (l : List Char) : Option (List Char) :=
  if l = [] then none else searchImg l

/-! ## The per-item record construction of `main` -/

/-- Python `a or b` on strings: `b` when `a` is empty. -/
def pyOr (a b : List Char) : List Char := if a = [] then b else a

/-- The `media:content` element when present; `url` is its optional `url`
attribute. -/
structure MediaElem where
  url : Option (List Char)
deriving DecidableEq, Repr

/-- One `item` element, each field the result of the corresponding
`findtext`/`find` call (`none` = absent). -/
structure Item where
  title : Option (List Char) := none
  link : Option (List Char) := none
  pubDate : Option (List Char) := none
  dcDate : Option (List Char) := none
  atomUpdated : Option (List Char) := none
  contentEncoded : Option (List Char) := none
  description : Option (List Char) := none
  media : Option MediaElem := none
deriving DecidableEq, Repr

/-- One output record (an element of the serialized array). -/
structure Rec where
  title : List Char
  subtitle : List Char
  date : List Char
  url : List Char
  image : Option (List Char)
deriving DecidableEq, Repr

/-- The three mojibake characters the source appends as its ellipsis
marker (the literal on the truncation line). -/
def ellipsisMark : List Char := [Char.ofNat 0xE2, Char.ofNat 0x20AC, Char.ofNat 0xA6]

/-- The body of the `for it in items[:MAX_POSTS]` loop: one record. -/
def buildRecord (loc : Int) (now : DTA) (it : Item) : Rec :=
  let title := trimC (it.title.getD [])
  let link := trimC (it.link.getD [])
  let pubDate := trimC (it.pubDate.getD [])
  let iso := parse_date loc now (some pubDate) it.dcDate it.atomUpdated
  let content := it.contentEncoded.getD []
  let descriptionTxt := it.description.getD []
  let sub0 := stripHtml (pyOr descriptionTxt content)
  let subtitle :=
    if 220 < sub0.length then rstripC (sub0.take 217) ++ ellipsisMark else sub0
  let image :=
    match it.media with
    | some m =>
      match m.url with
      | some u => if u = [] then first_image (pyOr content descriptionTxt) else some u
      | none => first_image (pyOr content descriptionTxt)
    | none => first_image (pyOr content descriptionTxt)
  { title := title, subtitle := subtitle, date := iso, url := link, image := image }

/-- The `MAX_POSTS` constant. -/
def MAX_POSTS : Nat := 12

/-- The full record list `out` built by `main` from the item list. -/
def mainRecords (loc : Int) (now : DTA) (items : List Item) : List Rec :=
  (items.take MAX_POSTS).map (buildRecord loc now)

/-! ## Model of `fetch` and of `main`'s control flow -/

/-- Outcome of one `urlopen` attempt: a body, an `HTTPError` with a status
code, or a non-HTTP `URLError` (network error). -/
inductive Resp where
  | ok (body : Nat)
  | http (code : Nat)
  | net
deriving DecidableEq, Repr

/-- A stored exception: `HTTPError` or network `URLError`. -/
inductive FErr where
  | http (code : Nat)
  | net
deriving DecidableEq, Repr

/-- The tuple in `e.code not in (403, 429, 500, 502, 503, 504)`. -/
def retryCodes : List Nat := [403, 429, 500, 502, 503, 504]

/-- The `for i in range(tries)` loop of `fetch`. The environment `resp`
gives attempt `i`'s outcome; `delay` is in seconds (the source's `2.0`).
Returns the result (`.error` models `raise last_err`, with `none` the
impossible `raise None` of zero tries) and the list of sleep durations, in
order. -/
def fetchGo (resp : Nat → Resp) (delay : Nat) :
    Nat → Nat → Option FErr → Except (Option FErr) Nat × List Nat
  | _, 0, last => (.error last, [])
  | i, fuel + 1, _ =>
    match resp i with
    | .ok b => (.ok b, [])
    | .http c =>
      if c ∈ retryCodes then
        let p := fetchGo resp delay (i + 1) fuel (some (.http c))
        (p.1, delay * (i + 1) :: p.2)
      else (.error (some (.http c)), [])
    | .net =>
      let p := fetchGo resp delay (i + 1) fuel (some .net)
      (p.1, delay * (i + 1) :: p.2)

/-- Model of `fetch(url, tries, delay)`. -/
def fetch (resp : Nat → Resp) (tries delay : Nat) :
    Except (Option FErr) Nat × List Nat :=
  fetchGo resp delay 0 tries none

/-- A parsed XML document: `channel` is `root.find("channel")`, holding the
`item` children when the child exists. -/
structure Feed where
  channel : Option (List Item)
deriving DecidableEq

/-- Control flow of `main`: fetch, parse, build, write. The result is
`(exit code, file written (its record list) or none, diagnostic printed on
stderr?)`. `parseXML` models `ET.fromstring` on the fetched body. -/
def mainRun (resp : Nat → Resp) (parseXML : Nat → Option Feed)
    (loc : Int) (now : DTA) : Nat × Option (List Rec) × Bool :=
  match (fetch resp 4 2).1 with
  | .error _ => (1, none, true)
  | .ok raw =>
    match parseXML raw with
    | none => (1, none, true)
    | some feed =>
      (0, some (mainRecords loc now (feed.channel.getD [])), false)

/-- A retriable attempt outcome: a network `URLError`, or an `HTTPError`
whose code is in the retry tuple (the loop sleeps and moves on exactly in
these cases). -/
def retryableR (r : Resp) : Prop :=
  r = .net ∨ ∃ c, r = .http c ∧ c ∈ retryCodes

instance (r : Resp) : Decidable (retryableR r) :=
  match r with
  | .ok b => isFalse (by
      rintro (h | ⟨c, hc, _⟩)
      · exact Resp.noConfusion h
      · exact Resp.noConfusion hc)
  | .net => isTrue (Or.inl rfl)
  | .http c =>
    if hm : c ∈ retryCodes then isTrue (Or.inr ⟨c, rfl, hm⟩)
    else isFalse (by
      rintro (h | ⟨c2, hc2, hm2⟩)
      · exact Resp.noConfusion h
      · obtain rfl : c = c2 := by injection hc2
        exact hm hm2)

/-- The stored exception corresponding to a failed attempt outcome. -/
def errOf : Resp → FErr
  | .http c => .http c
  | _ => .net

/-- Modelled from the spec: the instant in UTC that a date string with a
named zone (`UTC`, or `GMT` before normalization) denotes. The named zones
the parser accepts all stand for offset zero, so the denoted instant is the
parse of the naive fields at local offset 0. This is the spec-side reading
used to judge the round-trip claim; the program instead interprets naive
fields at the machine's local offset. -/
def utcZoneReading (l : List Char) : Option DTA := tryFmts 0 l

/-! ## Digit-character lemmas -/

theorem dchar_toNat (n : Nat) : (dchar n).toNat = 48 + n % 10 := by
  have h : n % 10 < 10 := Nat.mod_lt _ (by norm_num)
  unfold dchar
  generalize n % 10 = k at *
  interval_cases k <;> rfl

theorem isDig_dchar (n : Nat) : isDig (dchar n) = true := by
  simp only [isDig, dchar_toNat]
  have h : n % 10 < 10 := Nat.mod_lt _ (by norm_num)
  simp only [decide_eq_true_eq]
  omega

theorem dv_dchar (n : Nat) : dv (dchar n) = n % 10 := by
  simp only [dv, dchar_toNat]
  omega

theorem dchar_eq_char (n : Nat) (c : Char) :
    (dchar n = c) ↔ 48 + n % 10 = c.toNat := by
  constructor
  · intro h
    rw [← h, dchar_toNat]
  · intro h
    rw [dchar, h, Char.ofNat_toNat]

theorem pyWs_dchar (n : Nat) : pyWs (dchar n) = false := by
  have h : n % 10 < 10 := Nat.mod_lt _ (by norm_num)
  unfold pyWs dchar
  generalize n % 10 = k at *
  interval_cases k <;> rfl

theorem toLower_dchar (n : Nat) : (dchar n).toLower = dchar n := by
  have h : n % 10 < 10 := Nat.mod_lt _ (by norm_num)
  unfold dchar
  generalize n % 10 = k at *
  interval_cases k <;> rfl

theorem dchar_ne_big (n : Nat) (c : Char) (hc : 58 ≤ c.toNat) : dchar n ≠ c := by
  intro h
  rw [dchar_eq_char] at h
  have : n % 10 < 10 := Nat.mod_lt _ (by norm_num)
  omega

/-! ## Identity of the normalization on whitespace-free, G-free text -/

theorem dropWhile_pyWs_id (l : List Char) (h : ∀ c ∈ l, pyWs c = false) :
    l.dropWhile pyWs = l := by
  cases l with
  | nil => rfl
  | cons c r =>
    rw [List.dropWhile_cons]
    simp [h c (by simp)]

theorem trimC_id (l : List Char) (h : ∀ c ∈ l, pyWs c = false) :
    trimC l = l := by
  unfold trimC
  rw [dropWhile_pyWs_id l h, dropWhile_pyWs_id l.reverse (by
    intro c hc; exact h c (List.mem_reverse.mp hc)), List.reverse_reverse]

theorem replGMT_id (l : List Char) (h : ∀ c ∈ l, c ≠ 'G') :
    replGMT l = l := by
  induction l using replGMT.induct with
  | case1 => rfl
  | case2 c => rfl
  | case3 c1 c2 => rfl
  | case4 c1 c2 c3 rest hG ih =>
    exact absurd hG.1 (h c1 (by simp))
  | case5 c1 c2 c3 rest hG ih =>
    rw [replGMT]
    rw [if_neg hG, ih (fun c hc => h c (by simp at hc ⊢; tauto))]

theorem collapseWs_id (l : List Char) (h : ∀ c ∈ l, pyWs c = false) :
    collapseWs l = l := by
  induction l using collapseWs.induct with
  | case1 => rfl
  | case2 c hw => exact absurd hw (by simp [h c (by simp)])
  | case3 c hw => simp [collapseWs, hw]
  | case4 c1 c2 rest h1 h2 ih =>
    exact absurd h1 (by simp [h c1 (by simp)])
  | case5 c1 c2 rest h1 h2 ih =>
    exact absurd h1 (by simp [h c1 (by simp)])
  | case6 c1 c2 rest h1 ih =>
    rw [collapseWs, if_neg (by simp [h1]), ih (fun c hc => h c (by simp at hc ⊢; tauto))]

/-! ## Digit literals as `dchar`, and parser component round trips -/

theorem litd0 : ('0' : Char) = dchar 0 := rfl

theorem litd1 : ('1' : Char) = dchar 1 := rfl

theorem litd2 : ('2' : Char) = dchar 2 := rfl

theorem litd3 : ('3' : Char) = dchar 3 := rfl

theorem litd4 : ('4' : Char) = dchar 4 := rfl

theorem litd5 : ('5' : Char) = dchar 5 := rfl

theorem litd6 : ('6' : Char) = dchar 6 := rfl

theorem dchar_eq_dchar (n k : Nat) : (dchar n = dchar k) ↔ n % 10 = k % 10 := by
  rw [dchar_eq_char, dchar_toNat]
  omega

theorem pYear_pad4 (y : Nat) (hy : y ≤ 9999) (r : List Char) :
    pYear (pad4 y ++ r) = some (y, r) := by
  simp [pad4, pYear, isDig_dchar, dv_dchar]
  omega

theorem pMon_pad2 (mo : Nat) (h1 : 1 ≤ mo) (h2 : mo ≤ 12) (r : List Char) :
    pMon (pad2 mo ++ r) = some (mo, r) := by
  simp only [pad2, List.cons_append, List.nil_append, pMon, litd0, litd1, litd2,
    dchar_eq_dchar, isDig_dchar, dv_dchar, ne_eq, true_and, and_true]
  split_ifs <;>
    first
    | (exfalso; omega)
    | (simp only [Option.some.injEq, Prod.mk.injEq, eq_self_iff_true, and_true]; omega)

theorem pDay_pad2 (d : Nat) (h1 : 1 ≤ d) (h2 : d ≤ 31) (r : List Char) :
    pDay (pad2 d ++ r) = some (d, r) := by
  simp only [pad2, List.cons_append, List.nil_append, pDay, litd0, litd1, litd2, litd3,
    dchar_eq_dchar, isDig_dchar, dv_dchar, ne_eq, true_and, and_true]
  split_ifs <;>
    first
    | (exfalso; omega)
    | (simp only [Option.some.injEq, Prod.mk.injEq, eq_self_iff_true, and_true]; omega)

theorem pHour_pad2 (h : Nat) (h2 : h ≤ 23) (r : List Char) :
    pHour (pad2 h ++ r) = some (h, r) := by
  simp only [pad2, List.cons_append, List.nil_append, pHour, litd0, litd1, litd2,
    dchar_eq_dchar, isDig_dchar, dv_dchar, ne_eq, true_and, and_true]
  split_ifs <;>
    first
    | (exfalso; omega)
    | (simp only [Option.some.injEq, Prod.mk.injEq, eq_self_iff_true, and_true]; omega)

theorem pMin_pad2 (m : Nat) (h2 : m ≤ 59) (r : List Char) :
    pMin (pad2 m ++ r) = some (m, r) := by
  simp only [pad2, List.cons_append, List.nil_append, pMin,
    dchar_eq_dchar, isDig_dchar, dv_dchar, ne_eq, true_and, and_true]
  split_ifs <;>
    first
    | (exfalso; omega)
    | (simp only [Option.some.injEq, Prod.mk.injEq, eq_self_iff_true, and_true]; omega)

theorem pSec_pad2 (s : Nat) (h2 : s ≤ 59) (r : List Char) :
    pSec (pad2 s ++ r) = some (s, r) := by
  simp only [pad2, List.cons_append, List.nil_append, pSec, litd0, litd1, litd6,
    dchar_eq_dchar, isDig_dchar, dv_dchar, ne_eq, true_and, and_true]
  split_ifs <;>
    first
    | (exfalso; omega)
    | (simp only [Option.some.injEq, Prod.mk.injEq, eq_self_iff_true, and_true]; omega)

theorem pFrac_pad6 (u : Nat) (hu : u ≤ 999999) (r : List Char) :
    pFrac (pad6 u ++ r) = some (u, r) := by
  simp [pad6, pFrac, takeDigs, isDig_dchar, dv_dchar, List.foldl]
  omega

/-! ## Characters of an ISO rendering, and normalization invariance -/

theorem pad2_ok (n : Nat) : ∀ c ∈ pad2 n, pyWs c = false ∧ c ≠ 'G' := by
  intro c hc
  simp only [pad2, List.mem_cons, List.not_mem_nil, or_false] at hc
  rcases hc with rfl | rfl <;>
    exact ⟨pyWs_dchar _, dchar_ne_big _ _ (by decide)⟩

theorem pad4_ok (n : Nat) : ∀ c ∈ pad4 n, pyWs c = false ∧ c ≠ 'G' := by
  intro c hc
  simp only [pad4, List.mem_cons, List.not_mem_nil, or_false] at hc
  rcases hc with rfl | rfl | rfl | rfl <;>
    exact ⟨pyWs_dchar _, dchar_ne_big _ _ (by decide)⟩

theorem pad6_ok (n : Nat) : ∀ c ∈ pad6 n, pyWs c = false ∧ c ≠ 'G' := by
  intro c hc
  simp only [pad6, List.mem_cons, List.not_mem_nil, or_false] at hc
  rcases hc with rfl | rfl | rfl | rfl | rfl | rfl <;>
    exact ⟨pyWs_dchar _, dchar_ne_big _ _ (by decide)⟩

theorem isoOut_chars (t : DTA) : ∀ c ∈ isoOut t, pyWs c = false ∧ c ≠ 'G' := by
  by_cases hus : t.us = 0 <;>
    simp only [isoOut, hus, ite_true, ite_false, List.append_nil,
      List.forall_mem_append, List.forall_mem_cons] <;>
    (repeat' constructor) <;>
    first
    | (exact pad4_ok _)
    | (exact pad2_ok _)
    | (exact pad6_ok _)
    | decide

theorem normCand_isoOut (t : DTA) : normCand (isoOut t) = isoOut t := by
  have h := isoOut_chars t
  unfold normCand
  rw [trimC_id _ (fun c hc => (h c hc).1), replGMT_id _ (fun c hc => (h c hc).2),
      collapseWs_id _ (fun c hc => (h c hc).1)]

/-! ## Facts about the calendar shift -/

theorem daysInMonth_bounds (y mo : Nat) :
    28 ≤ daysInMonth y mo ∧ daysInMonth y mo ≤ 31 := by
  unfold daysInMonth
  split_ifs <;> omega

theorem daysInMonth_dec : daysInMonth y 12 = 31 := by
  unfold daysInMonth
  norm_num

theorem shiftToUTC_zero (t : DTA) (hh : t.h ≤ 23) (hm : t.mi ≤ 59)
    (h0 : t.off = 0) : shiftToUTC t = some t := by
  obtain ⟨y, mo, d, h, mi, s, us, off⟩ := t
  simp only at hh hm h0
  subst h0
  unfold shiftToUTC
  dsimp only
  rw [if_pos (by constructor <;> omega)]
  simp only [Option.some.injEq, DTA.mk.injEq, eq_self_iff_true, true_and, and_true]
  constructor <;> omega

/-! ## The ISO rendering re-parses to the same timestamp -/

theorem runFmt_wday_dchar (ds : List Dir) (n : Nat) (b c : Char)
    (rest : List Char) (r0 : RawDT) :
    runFmt (.wday :: ds) (dchar n :: b :: c :: rest) r0 = none := by
  simp only [runFmt, take3Low]
  rw [if_neg]
  intro hmem
  simp only [wdayNames, toLower_dchar, List.mem_cons, List.cons.injEq,
    List.not_mem_nil, or_false] at hmem
  rcases hmem with ⟨h1, _⟩ | ⟨h1, _⟩ | ⟨h1, _⟩ | ⟨h1, _⟩ | ⟨h1, _⟩ | ⟨h1, _⟩ | ⟨h1, _⟩ <;>
    exact dchar_ne_big n _ (by decide) h1

theorem runFmt_wday_isoOut (ds : List Dir) (t : DTA) (r0 : RawDT) :
    runFmt (.wday :: ds) (isoOut t) r0 = none := by
  have h : isoOut t = dchar (t.y / 1000) :: dchar (t.y / 100) :: dchar (t.y / 10) ::
      (dchar t.y :: ('-' :: pad2 t.mo ++ '-' :: pad2 t.d ++
      'T' :: pad2 t.h ++ ':' :: pad2 t.mi ++ ':' :: pad2 t.s ++
      (if t.us = 0 then [] else '.' :: pad6 t.us) ++
      ['+', '0', '0', ':', '0', '0'])) := by
    simp [isoOut, pad4, List.append_assoc]
  rw [h]
  exact runFmt_wday_dchar ds _ _ _ _ r0

theorem attemptFmt_wday_isoOut (loc : Int) (ds : List Dir) (t : DTA) :
    attemptFmt loc (.wday :: ds) (isoOut t) = none := by
  unfold attemptFmt
  rw [runFmt_wday_isoOut]
  rfl

theorem pZ_final : pZ ['+', '0', '0', ':', '0', '0'] = some (0, []) := by decide

theorem runFmt5_isoOut (t : DTA) (hv : validDTA t) (hus : t.us = 0) :
    runFmt fmt5 (isoOut t) {} =
      some { y := t.y, mo := t.mo, d := t.d, h := t.h, mi := t.mi, s := t.s,
             us := 0, off := some 0 } := by
  obtain ⟨y, mo, d, h, mi, s, us, off⟩ := t
  obtain ⟨hy1, hy2, hmo1, hmo2, hd1, hd2, hh, hmi, hs, hus2⟩ := hv
  simp only at hus hy1 hy2 hmo1 hmo2 hd1 hd2 hh hmi hs ⊢
  subst hus
  have hd31 : d ≤ 31 := le_trans hd2 (daysInMonth_bounds y mo).2
  have hin : isoOut ⟨y, mo, d, h, mi, s, 0, off⟩ =
      pad4 y ++ '-' :: (pad2 mo ++ '-' :: (pad2 d ++ 'T' :: (pad2 h ++
      ':' :: (pad2 mi ++ ':' :: (pad2 s ++ ['+', '0', '0', ':', '0', '0']))))) := by
    simp [isoOut, List.append_assoc]
  rw [hin]
  simp only [fmt5, runFmt, pYear_pad4 y hy2, pMon_pad2 mo hmo1 hmo2,
    pDay_pad2 d hd1 hd31, pHour_pad2 h hh, pMin_pad2 mi hmi, pSec_pad2 s hs,
    pZ_final, eq_self_iff_true, if_true, Char.toLower]

theorem pZ_dot (x : Char) (l : List Char) : pZ ('.' :: x :: l) = none := by
  simp only [pZ]
  rw [if_neg (by decide), if_neg (by decide)]

theorem runFmt6_isoOut (t : DTA) (hv : validDTA t) (hus : t.us ≠ 0) :
    runFmt fmt6 (isoOut t) {} =
      some { y := t.y, mo := t.mo, d := t.d, h := t.h, mi := t.mi, s := t.s,
             us := t.us, off := some 0 } := by
  obtain ⟨y, mo, d, h, mi, s, us, off⟩ := t
  obtain ⟨hy1, hy2, hmo1, hmo2, hd1, hd2, hh, hmi, hs, hus2⟩ := hv
  simp only at hus hy1 hy2 hmo1 hmo2 hd1 hd2 hh hmi hs hus2 ⊢
  have hd31 : d ≤ 31 := le_trans hd2 (daysInMonth_bounds y mo).2
  have hin : isoOut ⟨y, mo, d, h, mi, s, us, off⟩ =
      pad4 y ++ '-' :: (pad2 mo ++ '-' :: (pad2 d ++ 'T' :: (pad2 h ++
      ':' :: (pad2 mi ++ ':' :: (pad2 s ++ '.' ::
      (pad6 us ++ ['+', '0', '0', ':', '0', '0'])))))) := by
    simp [isoOut, List.append_assoc, hus]
  rw [hin]
  simp only [fmt6, runFmt, pYear_pad4 y hy2, pMon_pad2 mo hmo1 hmo2,
    pDay_pad2 d hd1 hd31, pHour_pad2 h hh, pMin_pad2 mi hmi, pSec_pad2 s hs,
    pFrac_pad6 us hus2, pZ_final, eq_self_iff_true, if_true, Char.toLower]

theorem runFmt5_isoOut_us (t : DTA) (hv : validDTA t) (hus : t.us ≠ 0) :
    runFmt fmt5 (isoOut t) {} = none := by
  obtain ⟨y, mo, d, h, mi, s, us, off⟩ := t
  obtain ⟨hy1, hy2, hmo1, hmo2, hd1, hd2, hh, hmi, hs, hus2⟩ := hv
  simp only at hus hy1 hy2 hmo1 hmo2 hd1 hd2 hh hmi hs ⊢
  have hd31 : d ≤ 31 := le_trans hd2 (daysInMonth_bounds y mo).2
  have hin : isoOut ⟨y, mo, d, h, mi, s, us, off⟩ =
      pad4 y ++ '-' :: (pad2 mo ++ '-' :: (pad2 d ++ 'T' :: (pad2 h ++
      ':' :: (pad2 mi ++ ':' :: (pad2 s ++ '.' ::
      (pad6 us ++ ['+', '0', '0', ':', '0', '0'])))))) := by
    simp [isoOut, List.append_assoc, hus]
  rw [hin]
  have h6 : pad6 us ++ ['+', '0', '0', ':', '0', '0'] =
      dchar (us / 100000) :: (dchar (us / 10000) :: dchar (us / 1000) ::
      dchar (us / 100) :: dchar (us / 10) :: dchar us ::
      ['+', '0', '0', ':', '0', '0']) := by
    simp [pad6]
  simp only [fmt5, runFmt, pYear_pad4 y hy2, pMon_pad2 mo hmo1 hmo2,
    pDay_pad2 d hd1 hd31, pHour_pad2 h hh, pMin_pad2 mi hmi, pSec_pad2 s hs,
    eq_self_iff_true, if_true, Char.toLower, h6, pZ_dot]

theorem mkDT_pos (r : RawDT) (h : 1 ≤ r.y ∧ r.y ≤ 9999 ∧ 1 ≤ r.mo ∧ r.mo ≤ 12 ∧
    1 ≤ r.d ∧ r.d ≤ daysInMonth r.y r.mo ∧
    r.h ≤ 23 ∧ r.mi ≤ 59 ∧ r.s ≤ 59 ∧ r.us ≤ 999999) : mkDT r = some r := by
  unfold mkDT
  rw [if_pos h]

theorem attemptFmt5_isoOut (loc : Int) (t : DTA) (hv : validDTA t)
    (h0 : t.off = 0) (hus : t.us = 0) : attemptFmt loc fmt5 (isoOut t) = some t := by
  unfold attemptFmt
  rw [runFmt5_isoOut t hv hus]
  simp only [Option.some_bind]
  obtain ⟨y, mo, d, h, mi, s, us, off⟩ := t
  obtain ⟨hy1, hy2, hmo1, hmo2, hd1, hd2, hh, hmi, hs, _⟩ := hv
  simp only at h0 hus hy1 hy2 hmo1 hmo2 hd1 hd2 hh hmi hs ⊢
  subst h0 hus
  rw [mkDT_pos _ ⟨hy1, hy2, hmo1, hmo2, hd1, hd2, hh, hmi, hs, Nat.zero_le _⟩]
  simp only [Option.some_bind, Option.getD_some]
  exact shiftToUTC_zero ⟨y, mo, d, h, mi, s, 0, 0⟩ hh hmi rfl

theorem attemptFmt6_isoOut (loc : Int) (t : DTA) (hv : validDTA t)
    (h0 : t.off = 0) (hus : t.us ≠ 0) : attemptFmt loc fmt6 (isoOut t) = some t := by
  unfold attemptFmt
  rw [runFmt6_isoOut t hv hus]
  simp only [Option.some_bind]
  obtain ⟨y, mo, d, h, mi, s, us, off⟩ := t
  obtain ⟨hy1, hy2, hmo1, hmo2, hd1, hd2, hh, hmi, hs, hus2⟩ := hv
  simp only at h0 hus hy1 hy2 hmo1 hmo2 hd1 hd2 hh hmi hs hus2 ⊢
  subst h0
  rw [mkDT_pos _ (by exact ⟨hy1, hy2, hmo1, hmo2, hd1, hd2, hh, hmi, hs, hus2⟩)]
  simp only [Option.some_bind, Option.getD_some]
  exact shiftToUTC_zero ⟨y, mo, d, h, mi, s, us, 0⟩ hh hmi rfl

theorem attemptFmt5_isoOut_us (loc : Int) (t : DTA) (hv : validDTA t)
    (hus : t.us ≠ 0) : attemptFmt loc fmt5 (isoOut t) = none := by
  unfold attemptFmt
  rw [runFmt5_isoOut_us t hv hus]
  rfl

theorem tryFmts_isoOut (loc : Int) (t : DTA) (hv : validDTA t) (h0 : t.off = 0) :
    tryFmts loc (isoOut t) = some t := by
  unfold tryFmts fmts
  have a1 : attemptFmt loc fmt1 (isoOut t) = none := attemptFmt_wday_isoOut loc _ t
  have a2 : attemptFmt loc fmt2 (isoOut t) = none := attemptFmt_wday_isoOut loc _ t
  have a3 : attemptFmt loc fmt3 (isoOut t) = none := attemptFmt_wday_isoOut loc _ t
  have a4 : attemptFmt loc fmt4 (isoOut t) = none := attemptFmt_wday_isoOut loc _ t
  by_cases hus : t.us = 0
  · simp only [firstFmt, a1, a2, a3, a4, attemptFmt5_isoOut loc t hv h0 hus]
  · simp only [firstFmt, a1, a2, a3, a4, attemptFmt5_isoOut_us loc t hv hus,
      attemptFmt6_isoOut loc t hv h0 hus]

/-! ## Every successful parse yields a valid UTC timestamp -/

theorem pZ_bound (l : List Char) (v : Int) (xs : List Char)
    (h : pZ l = some (v, xs)) : -1440 < v ∧ v < 1440 := by
  cases l with
  | nil => simp [pZ] at h
  | cons a rest =>
    simp only [pZ] at h
    repeat' split at h
    all_goals
      first
      | (obtain ⟨rfl, -⟩ := h
         constructor <;> omega)
      | simp at h

theorem mkDT_inv (r r2 : RawDT) (h : mkDT r = some r2) :
    r2 = r ∧ 1 ≤ r.y ∧ r.y ≤ 9999 ∧ 1 ≤ r.mo ∧ r.mo ≤ 12 ∧
    1 ≤ r.d ∧ r.d ≤ daysInMonth r.y r.mo ∧
    r.h ≤ 23 ∧ r.mi ≤ 59 ∧ r.s ≤ 59 ∧ r.us ≤ 999999 := by
  unfold mkDT at h
  split_ifs at h with hcond
  simp only [Option.some.injEq] at h
  exact ⟨h.symm, hcond⟩

theorem runFmt_off (ds : List Dir) (l : List Char) (r r2 : RawDT)
    (h : runFmt ds l r = some r2)
    (hr : r.off = none ∨ ∃ v, r.off = some v ∧ -1440 < v ∧ v < 1440) :
    r2.off = none ∨ ∃ v, r2.off = some v ∧ -1440 < v ∧ v < 1440 := by
  induction ds generalizing l r with
  | nil =>
    simp only [runFmt] at h
    split_ifs at h
    simp only [Option.some.injEq] at h
    rw [← h]
    exact hr
  | cons dir ds ih =>
    cases dir with
    | lit c =>
      simp only [runFmt] at h
      repeat' split at h
      · exact ih _ _ h hr
      all_goals simp at h
    | sp =>
      simp only [runFmt] at h
      repeat' split at h
      · exact ih _ _ h hr
      all_goals simp at h
    | wday =>
      simp only [runFmt] at h
      repeat' split at h
      · exact ih _ _ h hr
      all_goals simp at h
    | mon3 =>
      simp only [runFmt] at h
      repeat' split at h
      · exact ih _ _ h hr
      all_goals simp at h
    | monNum =>
      simp only [runFmt] at h
      repeat' split at h
      · exact ih _ _ h hr
      all_goals simp at h
    | year4 =>
      simp only [runFmt] at h
      repeat' split at h
      · exact ih _ _ h hr
      all_goals simp at h
    | day2 =>
      simp only [runFmt] at h
      repeat' split at h
      · exact ih _ _ h hr
      all_goals simp at h
    | hour2 =>
      simp only [runFmt] at h
      repeat' split at h
      · exact ih _ _ h hr
      all_goals simp at h
    | min2 =>
      simp only [runFmt] at h
      repeat' split at h
      · exact ih _ _ h hr
      all_goals simp at h
    | sec2 =>
      simp only [runFmt] at h
      repeat' split at h
      · exact ih _ _ h hr
      all_goals simp at h
    | frac =>
      simp only [runFmt] at h
      repeat' split at h
      · exact ih _ _ h hr
      all_goals simp at h
    | zNum =>
      simp only [runFmt] at h
      split at h
      · next v xs heq =>
        exact ih _ _ h (Or.inr ⟨v, rfl, pZ_bound _ _ _ heq⟩)
      · simp at h
    | zName =>
      simp only [runFmt] at h
      repeat' split at h
      · exact ih _ _ h hr
      all_goals simp at h

theorem shiftToUTC_valid (t : DTA) (dt : DTA)
    (hb : 1 ≤ t.y ∧ t.y ≤ 9999 ∧ 1 ≤ t.mo ∧ t.mo ≤ 12 ∧
      1 ≤ t.d ∧ t.d ≤ daysInMonth t.y t.mo ∧
      t.h ≤ 23 ∧ t.mi ≤ 59 ∧ t.s ≤ 59 ∧ t.us ≤ 999999)
    (hoff : -1440 < t.off ∧ t.off < 1440)
    (hs : shiftToUTC t = some dt) : validDTA dt ∧ dt.off = 0 := by
  obtain ⟨y, mo, d, h, mi, s, us, off⟩ := t
  obtain ⟨hy1, hy2, hmo1, hmo2, hd1, hd2, hh, hmi, hs2, hus⟩ := hb
  simp only at hy1 hy2 hmo1 hmo2 hd1 hd2 hh hmi hs2 hus hoff
  have db1 := daysInMonth_bounds y mo
  have db2 := daysInMonth_bounds y (mo - 1)
  have db3 : daysInMonth (y - 1) 12 = 31 := daysInMonth_dec
  have db4 := daysInMonth_bounds y (mo + 1)
  have db5 := daysInMonth_bounds (y + 1) 1
  unfold shiftToUTC prevDay nextDay at hs
  dsimp only at hs
  unfold validDTA
  split_ifs at hs <;>
    simp only [Option.some.injEq] at hs <;>
    subst hs <;>
    dsimp only <;>
    refine ⟨⟨?_, ?_, ?_, ?_, ?_, ?_, ?_, ?_, ?_, ?_⟩, rfl⟩ <;>
    omega

theorem attemptFmt_valid (loc : Int) (f : List Dir) (l : List Char) (dt : DTA)
    (hloc : -1440 < loc ∧ loc < 1440)
    (h : attemptFmt loc f l = some dt) : validDTA dt ∧ dt.off = 0 := by
  unfold attemptFmt at h
  obtain ⟨r, hrf, h2⟩ := Option.bind_eq_some.mp h
  obtain ⟨r2, hmk, h3⟩ := Option.bind_eq_some.mp h2
  obtain ⟨heq22, hb⟩ := mkDT_inv r r2 hmk
  subst heq22
  have hoffb := runFmt_off f l {} r2 hrf (Or.inl rfl)
  refine shiftToUTC_valid _ dt (by exact hb) ?_ h3
  rcases hoffb with h0 | ⟨v, hv, hv1, hv2⟩
  · rw [h0]
    exact hloc
  · rw [hv]
    exact ⟨hv1, hv2⟩

theorem firstFmt_valid (loc : Int) (fs : List (List Dir)) (l : List Char)
    (dt : DTA) (hloc : -1440 < loc ∧ loc < 1440)
    (h : firstFmt loc fs l = some dt) : validDTA dt ∧ dt.off = 0 := by
  induction fs with
  | nil => simp [firstFmt] at h
  | cons f fs ih =>
    simp only [firstFmt] at h
    split at h
    · next heq =>
      rw [Option.some_inj] at h
      rw [← h]
      exact attemptFmt_valid loc f l _ hloc heq
    · exact ih h

theorem tryFmts_valid (loc : Int) (l : List Char) (dt : DTA)
    (hloc : -1440 < loc ∧ loc < 1440)
    (h : tryFmts loc l = some dt) : validDTA dt ∧ dt.off = 0 :=
  firstFmt_valid loc fmts l dt hloc h

theorem isoOut_ne_nil (t : DTA) : isoOut t ≠ [] := by
  simp [isoOut, pad4]

theorem candidateISO_roundtrip (loc loc2 : Int) (hloc : -1440 < loc ∧ loc < 1440)
    (l out : List Char) (h : candidateISO loc (some l) = some out) :
    (∃ dt : DTA, tryFmts loc (normCand l) = some dt ∧ out = isoOut dt ∧
      tryFmts loc2 (normCand out) = some dt) ∧
    candidateISO loc2 (some out) = some out := by
  simp only [candidateISO] at h
  split_ifs at h with hnil
  obtain ⟨dt, hdt, rfl⟩ :=
    Option.map_eq_some'.mp (show (tryFmts loc (normCand l)).map isoOut = some out from h)
  obtain ⟨hv, h0⟩ := tryFmts_valid loc _ dt hloc hdt
  have hre : tryFmts loc2 (normCand (isoOut dt)) = some dt := by
    rw [normCand_isoOut]
    exact tryFmts_isoOut loc2 dt hv h0
  refine ⟨⟨dt, hdt, rfl, hre⟩, ?_⟩
  simp only [candidateISO]
  rw [if_neg (isoOut_ne_nil dt), hre]
  rfl

/-! ## Behaviour of the fetch retry loop -/

theorem fetchGo_step_ok (resp : Nat → Resp) (d i fuel : Nat) (last : Option FErr)
    (b : Nat) (hok : resp i = .ok b) :
    fetchGo resp d i (fuel + 1) last = (.ok b, []) := by
  simp only [fetchGo]
  rw [hok]

theorem fetchGo_step_net (resp : Nat → Resp) (d i fuel : Nat) (last : Option FErr)
    (hnet : resp i = .net) :
    fetchGo resp d i (fuel + 1) last =
      ((fetchGo resp d (i + 1) fuel (some .net)).1,
       d * (i + 1) :: (fetchGo resp d (i + 1) fuel (some .net)).2) := by
  simp only [fetchGo]
  rw [hnet]

theorem fetchGo_step_http (resp : Nat → Resp) (d i fuel : Nat) (last : Option FErr)
    (c : Nat) (hc : resp i = .http c) (hmem : c ∈ retryCodes) :
    fetchGo resp d i (fuel + 1) last =
      ((fetchGo resp d (i + 1) fuel (some (.http c))).1,
       d * (i + 1) :: (fetchGo resp d (i + 1) fuel (some (.http c))).2) := by
  simp only [fetchGo]
  rw [hc]
  simp [hmem]

theorem fetchGo_ok (resp : Nat → Resp) (d : Nat) (k : Nat) :
    ∀ (i fuel : Nat) (last : Option FErr) (b : Nat), k < fuel →
    (∀ j, j < k → retryableR (resp (i + j))) → resp (i + k) = .ok b →
    fetchGo resp d i fuel last =
      (.ok b, (List.range k).map fun j => d * (i + j + 1)) := by
  induction k with
  | zero =>
    intro i fuel last b hk hr hok
    rw [Nat.add_zero] at hok
    cases fuel with
    | zero => omega
    | succ f => simp [fetchGo_step_ok resp d i f last b hok]
  | succ k ih =>
    intro i fuel last b hk hr hok
    cases fuel with
    | zero => omega
    | succ f =>
      have h0 : retryableR (resp i) := by
        have := hr 0 (by omega)
        rwa [Nat.add_zero] at this
      have hrs : ∀ j, j < k → retryableR (resp (i + 1 + j)) := by
        intro j hj
        have := hr (j + 1) (by omega)
        rwa [show i + (j + 1) = i + 1 + j by omega] at this
      have hoks : resp (i + 1 + k) = .ok b := by
        rwa [show i + 1 + k = i + (k + 1) by omega]
      have hmap : (List.range (k + 1)).map (fun j => d * (i + j + 1)) =
          d * (i + 1) :: (List.range k).map fun j => d * (i + 1 + j + 1) := by
        rw [List.range_succ_eq_map, List.map_cons, List.map_map, Nat.add_zero]
        exact congrArg _ (List.map_congr_left fun j _ => by
          simp only [Function.comp_apply, Nat.succ_eq_add_one]
          ring)
      rw [hmap]
      rcases h0 with hnet | ⟨c, hc, hmem⟩
      · rw [fetchGo_step_net resp d i f last hnet,
          ih (i + 1) f (some .net) b (by omega) hrs hoks]
      · rw [fetchGo_step_http resp d i f last c hc hmem,
          ih (i + 1) f (some (.http c)) b (by omega) hrs hoks]

theorem fetchGo_exhaust (resp : Nat → Resp) (d : Nat) :
    ∀ (fuel i : Nat) (last : Option FErr), 0 < fuel →
    (∀ j, j < fuel → retryableR (resp (i + j))) →
    fetchGo resp d i fuel last =
      (.error (some (errOf (resp (i + fuel - 1)))),
       (List.range fuel).map fun j => d * (i + j + 1)) := by
  intro fuel
  induction fuel with
  | zero => omega
  | succ f ih =>
    intro i last hpos hr
    have h0 : retryableR (resp i) := by
      have := hr 0 (by omega)
      rwa [Nat.add_zero] at this
    have hmap : (List.range (f + 1)).map (fun j => d * (i + j + 1)) =
        d * (i + 1) :: (List.range f).map fun j => d * (i + 1 + j + 1) := by
      rw [List.range_succ_eq_map, List.map_cons, List.map_map, Nat.add_zero]
      exact congrArg _ (List.map_congr_left fun j _ => by
        simp only [Function.comp_apply, Nat.succ_eq_add_one]
        ring)
    rw [hmap]
    cases f with
    | zero =>
      rcases h0 with hnet | ⟨c, hc, hmem⟩
      · have he : errOf (resp (i + (0 + 1) - 1)) = FErr.net := by
          rw [show i + (0 + 1) - 1 = i by omega, hnet]
          rfl
        rw [fetchGo_step_net resp d i 0 last hnet, he]
        simp [fetchGo, List.range_succ]
      · have he : errOf (resp (i + (0 + 1) - 1)) = FErr.http c := by
          rw [show i + (0 + 1) - 1 = i by omega, hc]
          rfl
        rw [fetchGo_step_http resp d i 0 last c hc hmem, he]
        simp [fetchGo, List.range_succ]
    | succ f2 =>
      have hrs : ∀ j, j < f2 + 1 → retryableR (resp (i + 1 + j)) := by
        intro j hj
        have := hr (j + 1) (by omega)
        rwa [show i + (j + 1) = i + 1 + j by omega] at this
      have hidx : i + 1 + (f2 + 1) - 1 = i + (f2 + 1 + 1) - 1 := by omega
      rcases h0 with hnet | ⟨c, hc, hmem⟩
      · rw [fetchGo_step_net resp d i (f2 + 1) last hnet,
          ih (i + 1) (some FErr.net) (by omega) hrs, hidx]
      · rw [fetchGo_step_http resp d i (f2 + 1) last c hc hmem,
          ih (i + 1) (some (FErr.http c)) (by omega) hrs, hidx]

theorem fetchGo_abort (resp : Nat → Resp) (d : Nat) (i fuel : Nat)
    (last : Option FErr) (c : Nat) (hc : resp i = .http c)
    (hmem : c ∉ retryCodes) :
    fetchGo resp d i (fuel + 1) last = (.error (some (.http c)), []) := by
  simp [fetchGo, hc, hmem]

/-! ## Characters and length of the sanitized subtitle -/

theorem scanGt_sub (l : List Char) (r : List Char) (h : scanGt l = some r) :
    ∀ c ∈ r, c ∈ l := by
  induction l generalizing r with
  | nil => simp [scanGt] at h
  | cons x xs ih =>
    simp only [scanGt] at h
    split_ifs at h with hx
    · obtain rfl := Option.some_inj.mp h
      intro c hc
      exact List.mem_cons_of_mem x hc
    · intro c hc
      exact List.mem_cons_of_mem x (ih r h c hc)

theorem tagSplit_sub (l : List Char) (r : List Char) (h : tagSplit l = some r) :
    ∀ c ∈ r, c ∈ l := by
  cases l with
  | nil => simp [tagSplit] at h
  | cons x xs =>
    simp only [tagSplit] at h
    split_ifs at h with hx
    intro c hc
    exact List.mem_cons_of_mem x (scanGt_sub xs r h c hc)

theorem stripTagsGo_mem (f : Nat) :
    ∀ (l : List Char) (c : Char), c ∈ stripTagsGo f l → c ∈ l ∨ c = ' ' := by
  induction f with
  | zero =>
    intro l c hc
    simp [stripTagsGo] at hc
  | succ f ih =>
    intro l c hc
    cases l with
    | nil => simp [stripTagsGo] at hc
    | cons x xs =>
      simp only [stripTagsGo] at hc
      split_ifs at hc with hx
      · rcases hts : tagSplit xs with _ | r2 <;> rw [hts] at hc
        · rcases List.mem_cons.mp hc with rfl | hc2
          · exact Or.inl (List.mem_cons_self _ _)
          · rcases ih xs c hc2 with hin | hsp
            · exact Or.inl (List.mem_cons_of_mem x hin)
            · exact Or.inr hsp
        · rcases List.mem_cons.mp hc with rfl | hc2
          · exact Or.inr rfl
          · rcases ih r2 c hc2 with hin | hsp
            · exact Or.inl (List.mem_cons_of_mem x (tagSplit_sub xs r2 hts c hin))
            · exact Or.inr hsp
      · rcases List.mem_cons.mp hc with rfl | hc2
        · exact Or.inl (List.mem_cons_self _ _)
        · rcases ih xs c hc2 with hin | hsp
          · exact Or.inl (List.mem_cons_of_mem x hin)
          · exact Or.inr hsp

theorem collapseWs_mem (l : List Char) (c : Char) (hc : c ∈ collapseWs l) :
    c ∈ l ∨ c = ' ' := by
  induction l using collapseWs.induct with
  | case1 => simp [collapseWs] at hc
  | case2 x hw =>
    simp only [collapseWs, if_pos hw] at hc
    exact Or.inr (List.mem_singleton.mp hc)
  | case3 x hw =>
    simp only [collapseWs, if_neg hw] at hc
    exact Or.inl hc
  | case4 c1 c2 rest h1 h2 ih =>
    simp only [collapseWs, if_pos h1, if_pos h2] at hc
    rcases ih hc with hin | hsp
    · exact Or.inl (List.mem_cons_of_mem c1 hin)
    · exact Or.inr hsp
  | case5 c1 c2 rest h1 h2 ih =>
    simp only [collapseWs, if_pos h1, if_neg h2] at hc
    rcases List.mem_cons.mp hc with rfl | hc2
    · exact Or.inr rfl
    · rcases ih hc2 with hin | hsp
      · exact Or.inl (List.mem_cons_of_mem c1 hin)
      · exact Or.inr hsp
  | case6 c1 c2 rest h1 ih =>
    simp only [collapseWs, if_neg h1] at hc
    rcases List.mem_cons.mp hc with rfl | hc2
    · exact Or.inl (List.mem_cons_self _ _)
    · rcases ih hc2 with hin | hsp
      · exact Or.inl (List.mem_cons_of_mem c1 hin)
      · exact Or.inr hsp

theorem trimC_sub (l : List Char) : trimC l ⊆ l := by
  intro c hc
  unfold trimC at hc
  rw [List.mem_reverse] at hc
  have h1 := (List.dropWhile_sublist (l := (l.dropWhile pyWs).reverse) pyWs).subset hc
  rw [List.mem_reverse] at h1
  exact (List.dropWhile_sublist pyWs).subset h1

theorem rstripC_sub (l : List Char) : rstripC l ⊆ l := by
  intro c hc
  unfold rstripC at hc
  rw [List.mem_reverse] at hc
  have h1 := (List.dropWhile_sublist (l := l.reverse) pyWs).subset hc
  rwa [List.mem_reverse] at h1

theorem rstripC_len (l : List Char) : (rstripC l).length ≤ l.length := by
  unfold rstripC
  rw [List.length_reverse]
  calc (l.reverse.dropWhile pyWs).length ≤ l.reverse.length :=
        (List.dropWhile_sublist _).length_le
    _ = l.length := List.length_reverse l

theorem stripHtml_mem (l : List Char) (c : Char) (hc : c ∈ stripHtml l) :
    c ∈ l ∨ c = ' ' := by
  unfold stripHtml stripTags at hc
  have h1 := trimC_sub _ hc
  rcases collapseWs_mem _ _ h1 with h2 | hsp
  · exact stripTagsGo_mem _ _ _ h2
  · exact Or.inr hsp

/-! ## The claims -/

/-- C1: for every feed whose XML parses and whose channel contains N item
elements (N ≥ 0), the output array has exactly min(N, 12) records, in feed
document order; excess items are dropped and an empty feed yields a valid
empty output rather than an error. -/
theorem claim_C1 (resp : Nat → Resp) (parseXML : Nat → Option Feed)
    (loc : Int) (now : DTA) (raw : Nat) (feed : Feed) (items : List Item)
    (hf : (fetch resp 4 2).1 = .ok raw) (hp : parseXML raw = some feed)
    (hc : feed.channel = some items) :
    mainRun resp parseXML loc now =
      (0, some (mainRecords loc now items), false) ∧
    (mainRecords loc now items).length = min items.length MAX_POSTS ∧
    ∀ i, i < MAX_POSTS →
      (mainRecords loc now items)[i]? = (items[i]?).map (buildRecord loc now) := by
  refine ⟨?_, ?_, ?_⟩
  · simp [mainRun, hf, hp, hc]
  · simp [mainRecords, List.length_take, Nat.min_comm]
  · intro i hi
    simp only [mainRecords, List.getElem?_map, List.getElem?_take]
    rw [if_pos hi]

/-- C1 witness: a 13-item feed produces 12 records and record 0 comes from
item 0. -/
theorem claim_C1_witness :
    mainRun (fun _ => .ok 0) (fun _ => some ⟨some (List.replicate 13 {})⟩) 0
        ⟨2020, 1, 1, 0, 0, 0, 0, 0⟩ =
      (0, some (mainRecords 0 ⟨2020, 1, 1, 0, 0, 0, 0, 0⟩ (List.replicate 13 {})), false) ∧
    (mainRecords 0 ⟨2020, 1, 1, 0, 0, 0, 0, 0⟩ (List.replicate 13 {})).length =
      min (List.replicate 13 ({} : Item)).length MAX_POSTS ∧
    (mainRecords 0 ⟨2020, 1, 1, 0, 0, 0, 0, 0⟩ (List.replicate 13 {}))[0]? =
      ((List.replicate 13 ({} : Item))[0]?).map
        (buildRecord 0 ⟨2020, 1, 1, 0, 0, 0, 0, 0⟩) :=
  ⟨(claim_C1 (fun _ => .ok 0) (fun _ => some ⟨some (List.replicate 13 {})⟩) 0
      ⟨2020, 1, 1, 0, 0, 0, 0, 0⟩ 0 ⟨some (List.replicate 13 {})⟩
      (List.replicate 13 {}) rfl rfl rfl).1,
   (claim_C1 (fun _ => .ok 0) (fun _ => some ⟨some (List.replicate 13 {})⟩) 0
      ⟨2020, 1, 1, 0, 0, 0, 0, 0⟩ 0 ⟨some (List.replicate 13 {})⟩
      (List.replicate 13 {}) rfl rfl rfl).2.1,
   (claim_C1 (fun _ => .ok 0) (fun _ => some ⟨some (List.replicate 13 {})⟩) 0
      ⟨2020, 1, 1, 0, 0, 0, 0, 0⟩ 0 ⟨some (List.replicate 13 {})⟩
      (List.replicate 13 {}) rfl rfl rfl).2.2 0 (by norm_num [MAX_POSTS])⟩

/-- C2 counterexample: the claim says a network error (a `URLError` that is
not an `HTTPError`) aborts the fetch immediately with no further attempts.
In the code the `break` fires only for an `HTTPError` outside the retry
tuple, so a network error on attempt 0 sleeps `delay x 1` and retries: here
attempt 1 succeeds, refuting the claim. -/
theorem claim_C2_cex :
    fetch (fun i => if i = 0 then Resp.net else Resp.ok 7) 4 2 =
      (.ok 7, [2]) ∧
    (fun i => if i = 0 then Resp.net else Resp.ok 7) 0 = Resp.net :=
  ⟨rfl, rfl⟩

/-- C2 amended: on an HTTP error whose status is in 403, 429, 500, 502,
503, 504 or on a network error the fetcher sleeps `delay x attempt_index`
and retries (up to 4 attempts); an HTTP error with any other status aborts
immediately with no sleep; exhausting all four attempts sleeps once more
and raises the last stored error. -/
theorem claim_C2 :
    (∀ (resp : Nat → Resp) (d c : Nat), resp 0 = .http c → c ∉ retryCodes →
      fetch resp 4 d = (.error (some (.http c)), [])) ∧
    (∀ (resp : Nat → Resp) (d k b : Nat), k < 4 →
      (∀ j, j < k → retryableR (resp j)) → resp k = .ok b →
      fetch resp 4 d = (.ok b, (List.range k).map fun j => d * (j + 1))) ∧
    (∀ (resp : Nat → Resp) (d : Nat), (∀ j, j < 4 → retryableR (resp j)) →
      fetch resp 4 d = (.error (some (errOf (resp 3))),
        [d * 1, d * 2, d * 3, d * 4])) := by
  refine ⟨?_, ?_, ?_⟩
  · intro resp d c hc hmem
    exact fetchGo_abort resp d 0 3 none c hc hmem
  · intro resp d k b hk hr hok
    have h := fetchGo_ok resp d k 0 4 none b hk
      (by intro j hj; rw [Nat.zero_add]; exact hr j hj)
      (by rw [Nat.zero_add]; exact hok)
    rw [fetch, h]
    exact congrArg _ (List.map_congr_left fun j _ => by rw [Nat.zero_add])
  · intro resp d hr
    have h := fetchGo_exhaust resp d 4 0 none (by norm_num)
      (by intro j hj; rw [Nat.zero_add]; exact hr j hj)
    rw [fetch, h]
    have hr4 : List.range 4 = [0, 1, 2, 3] := rfl
    rw [hr4]
    norm_num

/-- C2 witness: a 404 aborts at once with no sleep; two 403s then a 200
succeed after sleeping 2 s and 4 s; four retriable errors sleep
2, 4, 6, 8 s and raise the last error. -/
theorem claim_C2_witness :
    fetch (fun _ => .http 404) 4 2 = (.error (some (.http 404)), []) ∧
    fetch (fun i => if i < 2 then Resp.http 403 else Resp.ok 9) 4 2 =
      (.ok 9, (List.range 2).map fun j => 2 * (j + 1)) ∧
    fetch (fun _ => .http 503) 4 2 =
      (.error (some (errOf ((fun _ => Resp.http 503) 3))), [2 * 1, 2 * 2, 2 * 3, 2 * 4]) :=
  ⟨claim_C2.1 _ 2 404 rfl (by decide),
   claim_C2.2.1 _ 2 2 9 (by norm_num)
     (fun j hj => by interval_cases j <;> decide) rfl,
   claim_C2.2.2 _ 2 (fun j hj => by interval_cases j <;> decide)⟩

/-- C3 counterexample: the claim says a non-empty higher-priority date
candidate is the one used regardless of the later candidates. Here the
non-empty `pubDate` "garbage" parses under no format, and the emitted date
comes from the second candidate rather than from the fallback that the
first candidate alone would give, so the later candidate did matter. -/
theorem claim_C3_cex :
    parse_date 0 ⟨2020, 1, 1, 0, 0, 0, 0, 0⟩ (some "garbage".toList)
        (some "Wed, 22 Oct 2025 07:00:00 +0000".toList) none =
      "2025-10-22T07:00:00+00:00".toList ∧
    parse_date 0 ⟨2020, 1, 1, 0, 0, 0, 0, 0⟩ (some "garbage".toList) none none =
      "2020-01-01T00:00:00+00:00".toList ∧
    "2025-10-22T07:00:00+00:00".toList ≠ "2020-01-01T00:00:00+00:00".toList :=
  ⟨by decide, by decide, by decide⟩

/-- C3 amended: the first candidate that is non-empty AND parses under some
format supplies the date; a non-empty candidate that fails every format is
skipped in favour of later candidates. -/
theorem claim_C3 (loc : Int) (now : DTA) (p a1 a2 : Option (List Char))
    (r : List Char) :
    (candidateISO loc p = some r → parse_date loc now p a1 a2 = r) ∧
    (candidateISO loc p = none → candidateISO loc a1 = some r →
      parse_date loc now p a1 a2 = r) ∧
    (candidateISO loc p = none → candidateISO loc a1 = none →
      candidateISO loc a2 = some r → parse_date loc now p a1 a2 = r) := by
  refine ⟨?_, ?_, ?_⟩
  · intro h1
    simp [parse_date, pdLoop, h1]
  · intro h1 h2
    simp [parse_date, pdLoop, h1, h2]
  · intro h1 h2 h3
    simp [parse_date, pdLoop, h1, h2, h3]

/-- C3 witness: an unparseable first candidate falls through to the second
candidate, whose parse is emitted. -/
theorem claim_C3_witness :
    parse_date 0 ⟨2020, 1, 1, 0, 0, 0, 0, 0⟩ (some "garbage".toList)
        (some "Wed, 22 Oct 2025 07:00:00 +0000".toList) none =
      "2025-10-22T07:00:00+00:00".toList :=
  (claim_C3 0 ⟨2020, 1, 1, 0, 0, 0, 0, 0⟩ (some "garbage".toList)
      (some "Wed, 22 Oct 2025 07:00:00 +0000".toList) none
      "2025-10-22T07:00:00+00:00".toList).2.1 (by decide) (by decide)

/-- C4 counterexample: the claim says every record's subtitle contains no
angle brackets. The tag regex removes only complete groups of the shape
open bracket, one or more non-close characters, close bracket; an input
whose bracket never closes keeps it, so the subtitle "a <b" contains an
angle bracket. -/
theorem claim_C4_cex :
    (buildRecord 0 ⟨2020, 1, 1, 0, 0, 0, 0, 0⟩
        { description := some "a <b".toList }).subtitle = "a <b".toList ∧
    '<' ∈ (buildRecord 0 ⟨2020, 1, 1, 0, 0, 0, 0, 0⟩
        { description := some "a <b".toList }).subtitle :=
  ⟨by decide, by decide⟩

/-- C4 amended: every record's subtitle has length at most 221; when the
tag-stripped, whitespace-collapsed text exceeds 220 characters it is
truncated to 217, right-trimmed and the ellipsis marker appended; and the
subtitle is free of angle brackets whenever the description and rich
content are (only an unmatched bracket of the input can survive). -/
theorem claim_C4 (loc : Int) (now : DTA) (it : Item) :
    (buildRecord loc now it).subtitle.length ≤ 221 ∧
    ((∀ c ∈ it.description.getD [], c ≠ '<' ∧ c ≠ '>') →
     (∀ c ∈ it.contentEncoded.getD [], c ≠ '<' ∧ c ≠ '>') →
     ∀ c ∈ (buildRecord loc now it).subtitle, c ≠ '<' ∧ c ≠ '>') ∧
    (220 < (stripHtml (pyOr (it.description.getD [])
        (it.contentEncoded.getD []))).length →
      (buildRecord loc now it).subtitle =
        rstripC ((stripHtml (pyOr (it.description.getD [])
          (it.contentEncoded.getD []))).take 217) ++ ellipsisMark) := by
  have hsub : (buildRecord loc now it).subtitle =
      (if 220 < (stripHtml (pyOr (it.description.getD [])
          (it.contentEncoded.getD []))).length then
        rstripC ((stripHtml (pyOr (it.description.getD [])
          (it.contentEncoded.getD []))).take 217) ++ ellipsisMark
      else stripHtml (pyOr (it.description.getD [])
          (it.contentEncoded.getD []))) := rfl
  have hblob : ∀ c ∈ pyOr (it.description.getD []) (it.contentEncoded.getD []),
      c ∈ it.description.getD [] ∨ c ∈ it.contentEncoded.getD [] := by
    intro c hc
    unfold pyOr at hc
    split_ifs at hc with hd
    · exact Or.inr hc
    · exact Or.inl hc
  refine ⟨?_, ?_, ?_⟩
  · rw [hsub]
    split_ifs with hlen
    · rw [List.length_append]
      have h1 : (rstripC ((stripHtml (pyOr (it.description.getD [])
          (it.contentEncoded.getD []))).take 217)).length ≤ 217 :=
        le_trans (rstripC_len _) (by rw [List.length_take]; omega)
      have h2 : ellipsisMark.length = 3 := rfl
      omega
    · omega
  · intro hd hc c hcm
    rw [hsub] at hcm
    split_ifs at hcm with hlen
    · rcases List.mem_append.mp hcm with hm | hm
      · have hm2 := List.take_subset 217 _ (rstripC_sub _ hm)
        rcases stripHtml_mem _ _ hm2 with hm3 | hsp
        · rcases hblob c hm3 with h | h
          · exact hd c h
          · exact hc c h
        · subst hsp
          exact ⟨by decide, by decide⟩
      · revert hm
        have : ∀ c ∈ ellipsisMark, c ≠ '<' ∧ c ≠ '>' := by decide
        exact this c
    · rcases stripHtml_mem _ _ hcm with hm3 | hsp
      · rcases hblob c hm3 with h | h
        · exact hd c h
        · exact hc c h
      · subst hsp
        exact ⟨by decide, by decide⟩
  · intro hlen
    rw [hsub, if_pos hlen]

set_option maxRecDepth 10000 in
/-- C4 witness: a 300-character bracket-free description gives a truncated,
ellipsis-terminated subtitle of bounded length with no angle brackets. -/
theorem claim_C4_witness :
    (buildRecord 0 ⟨2020, 1, 1, 0, 0, 0, 0, 0⟩
        { description := some (List.replicate 300 'a') }).subtitle.length ≤ 221 ∧
    ('a' ≠ '<' ∧ 'a' ≠ '>') ∧
    (buildRecord 0 ⟨2020, 1, 1, 0, 0, 0, 0, 0⟩
        { description := some (List.replicate 300 'a') }).subtitle =
      rstripC ((stripHtml (pyOr ((some (List.replicate 300 'a')).getD [])
        ((none : Option (List Char)).getD []))).take 217) ++ ellipsisMark :=
  ⟨(claim_C4 0 ⟨2020, 1, 1, 0, 0, 0, 0, 0⟩
      { description := some (List.replicate 300 'a') }).1,
   (claim_C4 0 ⟨2020, 1, 1, 0, 0, 0, 0, 0⟩
      { description := some (List.replicate 300 'a') }).2.1
     (by decide) (by decide) 'a' (by decide),
   (claim_C4 0 ⟨2020, 1, 1, 0, 0, 0, 0, 0⟩
      { description := some (List.replicate 300 'a') }).2.2 (by decide)⟩

/-- C5 counterexample: the claim covers named-zone date strings. `strptime`
with a named-zone directive yields a naive datetime, which `astimezone`
interprets in the machine's local timezone; on a machine one hour ahead of
UTC (local offset 60 minutes) the string "Wed, 22 Oct 2025 07:00:00 UTC",
which denotes 07:00 UTC, is emitted as the 06:00 UTC timestamp, so the
re-parsed emitted date is a different instant than the original string
denotes. -/
theorem claim_C5_cex :
    tryFmts 60 (normCand "Wed, 22 Oct 2025 07:00:00 UTC".toList) =
      some ⟨2025, 10, 22, 6, 0, 0, 0, 0⟩ ∧
    utcZoneReading (normCand "Wed, 22 Oct 2025 07:00:00 UTC".toList) =
      some ⟨2025, 10, 22, 7, 0, 0, 0, 0⟩ ∧
    (⟨2025, 10, 22, 6, 0, 0, 0, 0⟩ : DTA) ≠ ⟨2025, 10, 22, 7, 0, 0, 0, 0⟩ :=
  ⟨by decide, by decide, by decide⟩

/-- C5 amended: for every date string the parser accepts (under any
machine-local offset below one day), the emitted ISO string re-parses, under
any local offset, to exactly the same UTC timestamp tuple, i.e. the same
instant in UTC; in fact re-parsing the emitted string emits the identical
string again. For named-zone inputs the accepted timestamp itself depends
on the machine's local offset (see the counterexample), so instant
preservation relative to the original string holds for numeric-offset and
GMT-normalized strings, where no naive interpretation occurs. -/
theorem claim_C5 (loc loc2 : Int) (s out : List Char)
    (h1 : -1440 < loc) (h2 : loc < 1440)
    (h : candidateISO loc (some s) = some out) :
    candidateISO loc2 (some out) = some out ∧
    ∃ dt : DTA, tryFmts loc (normCand s) = some dt ∧ out = isoOut dt ∧
      tryFmts loc2 (normCand out) = some dt := by
  obtain ⟨hex, hself⟩ := candidateISO_roundtrip loc loc2 ⟨h1, h2⟩ s out h
  exact ⟨hself, hex⟩

/-- C5 witness: a numeric-offset date string is emitted as an ISO string
that re-parses to itself. -/
theorem claim_C5_witness :
    candidateISO 0 (some "2025-10-22T07:00:00+0000".toList) =
      some "2025-10-22T07:00:00+00:00".toList ∧
    candidateISO 0 (some "2025-10-22T07:00:00+00:00".toList) =
      some "2025-10-22T07:00:00+00:00".toList :=
  ⟨by decide,
   (claim_C5 0 0 "2025-10-22T07:00:00+0000".toList
      "2025-10-22T07:00:00+00:00".toList (by decide) (by decide) (by decide)).1⟩

/-- C6: for every combination of date candidates, if no candidate parses
under any format the normalizer returns the current wall-clock time in UTC
as a valid ISO-8601 string (it parses back under the ISO format to the same
timestamp); the Lean model is a total function, reflecting that the Python
code catches every per-format exception and never raises. -/
theorem claim_C6 (loc : Int) (now : DTA) (p a1 a2 : Option (List Char))
    (h1 : candidateISO loc p = none) (h2 : candidateISO loc a1 = none)
    (h3 : candidateISO loc a2 = none)
    (hv : validDTA { now with off := 0 }) :
    parse_date loc now p a1 a2 = isoOut { now with off := 0 } ∧
    tryFmts 0 (normCand (isoOut { now with off := 0 })) =
      some { now with off := 0 } := by
  constructor
  · simp [parse_date, pdLoop, h1, h2, h3]
  · rw [normCand_isoOut]
    exact tryFmts_isoOut 0 _ hv rfl

/-- C6 witness: with an unparseable, an absent and an empty candidate the
fallback timestamp is emitted and its rendering parses back to itself. -/
theorem claim_C6_witness :
    parse_date 0 ⟨2021, 2, 3, 4, 5, 6, 7, 0⟩ (some "garbage".toList) none
        (some []) =
      isoOut { (⟨2021, 2, 3, 4, 5, 6, 7, 0⟩ : DTA) with off := 0 } ∧
    tryFmts 0 (normCand (isoOut
        { (⟨2021, 2, 3, 4, 5, 6, 7, 0⟩ : DTA) with off := 0 })) =
      some { (⟨2021, 2, 3, 4, 5, 6, 7, 0⟩ : DTA) with off := 0 } :=
  claim_C6 0 ⟨2021, 2, 3, 4, 5, 6, 7, 0⟩ (some "garbage".toList) none (some [])
    (by decide) (by decide) (by decide) (by decide)

/-- C7 counterexample: the claim says a declared media URL attribute is
used as-is regardless of in-body images. An item whose `media:content`
carries `url=""` declares the attribute, yet the code's truthiness test
skips it and the in-body image wins. -/
theorem claim_C7_cex :
    ({ media := some ⟨some []⟩,
       description := some "<img src=\"x\">".toList } : Item).media =
      some ⟨some []⟩ ∧
    (buildRecord 0 ⟨2020, 1, 1, 0, 0, 0, 0, 0⟩
        { media := some ⟨some []⟩,
          description := some "<img src=\"x\">".toList }).image =
      some "x".toList ∧
    (some "x".toList : Option (List Char)) ≠ some [] :=
  ⟨rfl, by decide, by decide⟩

/-- C7 amended: a declared NON-EMPTY media URL attribute is used as-is
regardless of in-body images; otherwise (no media element, no url
attribute, or an empty one) the image is the first match of the
case-insensitive img-src pattern in the rich content if non-empty else the
description, and null when nothing matches. -/
theorem claim_C7 (loc : Int) (now : DTA) (it : Item) :
    (∀ (m : MediaElem) (u : List Char), it.media = some m → m.url = some u →
      u ≠ [] → (buildRecord loc now it).image = some u) ∧
    ((it.media.bind MediaElem.url).getD [] = [] →
      (buildRecord loc now it).image =
        first_image (pyOr (it.contentEncoded.getD [])
          (it.description.getD []))) := by
  constructor
  · intro m u hm hu hne
    simp [buildRecord, hm, hu, hne]
  · intro hempty
    rcases hm : it.media with _ | m
    · simp [buildRecord, hm]
    · rcases hu : m.url with _ | u
      · simp [buildRecord, hm, hu]
      · rw [hm, Option.some_bind, hu, Option.getD_some] at hempty
        subst hempty
        simp [buildRecord, hm, hu]

/-- C7 witness: a non-empty media URL beats an in-body image; with the
attribute empty the in-body scan is used. -/
theorem claim_C7_witness :
    (buildRecord 0 ⟨2020, 1, 1, 0, 0, 0, 0, 0⟩
        { media := some ⟨some "u".toList⟩,
          description := some "<img src=\"x\">".toList }).image =
      some "u".toList ∧
    (buildRecord 0 ⟨2020, 1, 1, 0, 0, 0, 0, 0⟩
        { media := some ⟨some []⟩,
          description := some "<img src=\"x\">".toList }).image =
      first_image (pyOr ((none : Option (List Char)).getD [])
        ((some "<img src=\"x\">".toList).getD [])) :=
  ⟨(claim_C7 0 ⟨2020, 1, 1, 0, 0, 0, 0, 0⟩
      { media := some ⟨some "u".toList⟩,
        description := some "<img src=\"x\">".toList }).1
     ⟨some "u".toList⟩ "u".toList rfl rfl (by decide),
   (claim_C7 0 ⟨2020, 1, 1, 0, 0, 0, 0, 0⟩
      { media := some ⟨some []⟩,
        description := some "<img src=\"x\">".toList }).2 (by decide)⟩

/-- C8: a fetch failure or an XML-parse failure aborts the run with exit
code 1 and a stderr diagnostic, and no output file is written; every run
that gets past XML parsing writes the record list and exits 0, including
for zero-item feeds. -/
theorem claim_C8 (resp : Nat → Resp) (parseXML : Nat → Option Feed)
    (loc : Int) (now : DTA) :
    (∀ e, (fetch resp 4 2).1 = .error e →
      mainRun resp parseXML loc now = (1, none, true)) ∧
    (∀ raw, (fetch resp 4 2).1 = .ok raw → parseXML raw = none →
      mainRun resp parseXML loc now = (1, none, true)) ∧
    (∀ raw feed, (fetch resp 4 2).1 = .ok raw → parseXML raw = some feed →
      mainRun resp parseXML loc now =
        (0, some (mainRecords loc now (feed.channel.getD [])), false)) := by
  refine ⟨?_, ?_, ?_⟩ <;> intros <;> simp [mainRun, *]

/-- C8 witness: a non-retriable HTTP failure and a parse failure both
abort with exit 1 and nothing written; a parsed zero-item feed writes the
empty record list and exits 0. -/
theorem claim_C8_witness :
    mainRun (fun _ => .http 404) (fun _ => none) 0 ⟨2020, 1, 1, 0, 0, 0, 0, 0⟩ =
      (1, none, true) ∧
    mainRun (fun _ => .ok 0) (fun _ => none) 0 ⟨2020, 1, 1, 0, 0, 0, 0, 0⟩ =
      (1, none, true) ∧
    mainRun (fun _ => .ok 0) (fun _ => some ⟨some []⟩) 0
        ⟨2020, 1, 1, 0, 0, 0, 0, 0⟩ =
      (0, some (mainRecords 0 ⟨2020, 1, 1, 0, 0, 0, 0, 0⟩
        ((some ([] : List Item)).getD [])), false) :=
  ⟨(claim_C8 (fun _ => .http 404) (fun _ => none) 0 _).1
     (some (.http 404)) rfl,
   (claim_C8 (fun _ => .ok 0) (fun _ => none) 0 _).2.1 0 rfl rfl,
   (claim_C8 (fun _ => .ok 0) (fun _ => some ⟨some []⟩) 0 _).2.2 0
     ⟨some []⟩ rfl rfl⟩

/-- C9: the scenario feed with one item titled "Hello", pubDate
"Wed, 22 Oct 2025 07:00:00 GMT", description a paragraph containing
"World", no rich content and no media element, yields the record with
title "Hello", subtitle "World", date "2025-10-22T07:00:00+00:00", url the
item's link and a null image (the machine offset and clock are irrelevant
here and fixed to concrete values). -/
theorem claim_C9 :
    buildRecord 0 ⟨2020, 1, 1, 0, 0, 0, 0, 0⟩
      { title := some "Hello".toList,
        link := some "https://example.com/hello".toList,
        pubDate := some "Wed, 22 Oct 2025 07:00:00 GMT".toList,
        description := some "<p>World</p>".toList } =
    { title := "Hello".toList, subtitle := "World".toList,
      date := "2025-10-22T07:00:00+00:00".toList,
      url := "https://example.com/hello".toList, image := none } := by
  decide

/-- C10: a well-formed XML document whose root has no channel child (for
example a bare Atom feed) is not an error: the item list is treated as
empty, the empty array is written and the run exits 0. -/
theorem claim_C10 (resp : Nat → Resp) (parseXML : Nat → Option Feed)
    (loc : Int) (now : DTA) (raw : Nat) (feed : Feed)
    (hf : (fetch resp 4 2).1 = .ok raw) (hp : parseXML raw = some feed)
    (hc : feed.channel = none) :
    mainRun resp parseXML loc now = (0, some [], false) := by
  simp [mainRun, hf, hp, hc, mainRecords]

/-- C10 witness: a channel-less document yields exit 0 and an empty array. -/
theorem claim_C10_witness :
    mainRun (fun _ => .ok 0) (fun _ => some ⟨none⟩) 0
      ⟨2020, 1, 1, 0, 0, 0, 0, 0⟩ = (0, some [], false) :=
  claim_C10 (fun _ => .ok 0) (fun _ => some ⟨none⟩) 0
    ⟨2020, 1, 1, 0, 0, 0, 0, 0⟩ 0 ⟨none⟩ rfl rfl rfl

end BuildFeed
